import Mathlib

/-!
Verification of the helper library of the Nova Financial Solutions
financial-forecasting repository (modules data_loader.py,
publisher_analysis.py, sentiment_analysis.py, text_processing.py).

The Python code is shallowly embedded: strings are Lean strings (lists of
characters), Python floats carrying VADER compound scores are rationals,
DataFrames are association lists from column names to columns of cell
values, and the Python object heap - needed to state non-mutation of a
caller's DataFrame - is an explicit store of DataFrames addressed by
natural-number handles.  External library calls (NLTK tokenization, the
VADER analyzer, the filesystem) are parameters of the embedded functions.
-/

namespace Nova

/-! ### Generic list helpers shared by several embedded functions -/

/-- Stable insertion of an element into a list: the element is placed before
the first position whose inhabitant does not compare at-or-after it.  Used to
model the stable sorts of CPython (sorted, Counter.most_common) and the
pandas value ordering; a stable sort's output is uniquely determined by the
comparator, so insertion sort is an exact model of Timsort's result. -/
def insertOrdered (le : α → α → Bool) (a : α) : List α → List α
  | [] => [a]
  | b :: bs => if le a b then a :: b :: bs else b :: insertOrdered le a bs

/-- Stable sort by repeated ordered insertion (model of Python sorted). -/
def sortStable (le : α → α → Bool) : List α → List α
  | [] => []
  | a :: l => insertOrdered le a (sortStable le l)

/-- Accumulator-passing deduplication keeping the first occurrence of each
element, in first-occurrence order: the key order of a Python dict or
collections.Counter built by repeated insertion. -/
def dedupAcc [DecidableEq α] (seen : List α) : List α → List α
  | [] => []
  | a :: l => if a ∈ seen then dedupAcc seen l else a :: dedupAcc (a :: seen) l

/-- Distinct elements of a list in first-occurrence order (Python dict key
order). -/
def pyDedup [DecidableEq α] (l : List α) : List α :=
  dedupAcc [] l

/-- Python str.split with a one-character separator: splits at every
occurrence of the separator and keeps empty fragments, so the result always
has one more fragment than there are separator occurrences. -/
def pySplit (sep : Char) : List Char → List (List Char)
  | [] => [[]]
  | c :: cs =>
    if c = sep then [] :: pySplit sep cs
    else
      match pySplit sep cs with
      | [] => [[c]]
      | p :: ps => (c :: p) :: ps

/-! ### publisher_analysis.extract_organization_from_email -/

/-- Embedding of publisher_analysis.extract_organization_from_email: a
string without an at-sign is returned unchanged; otherwise the fragment
between the first and second at-sign (Python email.split at the at-sign,
index 1) is split at dots and its first fragment is returned. -/
def extract_organization_from_email (email : String) : String :=
  if '@' ∉ email.toList then email
  else
    let domain := (pySplit '@' email.toList).getD 1 []
    let organization := (pySplit '.' domain).headD []
    organization.asString

/-! ### sentiment_analysis: score classification -/

/-- Embedding of sentiment_analysis.classify_sentiment: the sequential
if/elif cascade over the VADER compound score, with thresholds 0.7, 0.1,
-0.1 and -0.7 compared by greater-or-equal. -/
def classify_sentiment (compound_score : ℚ) : String :=
  if compound_score ≥ 7/10 then "very-positive"
  else if compound_score ≥ 1/10 then "positive"
  else if compound_score ≥ -(1/10) then "neutral"
  else if compound_score ≥ -(7/10) then "negative"
  else "very-negative"

/-- Embedding of the pandas.cut call of add_sentiment_analysis with bins
[-1, -0.7, -0.1, 0.1, 0.7, 1] and the five category labels: pandas.cut with
its default right=True and include_lowest=False assigns x the label of the
half-open bin (lo, hi] that contains it, and assigns no label (NaN) to
values at or below the lowest edge or above the highest. -/
def pdCutLabel (x : ℚ) : Option String :=
  if x ≤ -1 then none
  else if x ≤ -(7/10) then some "very-negative"
  else if x ≤ -(1/10) then some "negative"
  else if x ≤ 1/10 then some "neutral"
  else if x ≤ 7/10 then some "positive"
  else if x ≤ 1 then some "very-positive"
  else none

/-- Embedding of the replace mapping of add_sentiment_analysis that builds
the sentiment_group column: very-positive becomes positive, very-negative
becomes negative, every other string is left unchanged. -/
def sentiment_group (s : String) : String :=
  if s = "very-positive" then "positive"
  else if s = "very-negative" then "negative"
  else s

/-! ### DataFrame model -/

/-- Cell value of a DataFrame column: a string, a number (Python float,
modelled as a rational), or a missing value (NaN/None). -/
inductive Val where
  | str : String → Val
  | num : ℚ → Val
  | na : Val
  deriving DecidableEq

/-- Python str() of a cell value, as used by astype(str): strings pass
through, missing values print as the string nan.  The decimal rendering of
a float is immaterial to every property proved here. -/
def valAsPyStr : Val → String
  | Val.str s => s
  | Val.num q => toString q
  | Val.na => "nan"

/-- DataFrame model: an association list from column names to columns
(lists of cell values, one per row). -/
structure DF where
  cols : List (String × List Val)
  deriving DecidableEq

/-- Column access: the column of the given name, or the empty column when
absent. -/
def getCol (df : DF) (name : String) : List Val :=
  (df.cols.lookup name).getD []

/-- Column membership test (Python: name in df.columns). -/
def hasCol (df : DF) (name : String) : Bool :=
  (df.cols.lookup name).isSome

/-- Column assignment (Python: df[name] = values): replaces the column when
present, appends it otherwise. -/
def setCol (df : DF) (name : String) (vs : List Val) : DF :=
  if hasCol df name then
    ⟨df.cols.map fun c => if c.1 = name then (name, vs) else c⟩
  else ⟨df.cols ++ [(name, vs)]⟩

/-! ### publisher_analysis: DataFrame transformations -/

/-- Embedding of publisher_analysis.add_organization_column (value level,
after the initial df.copy()): rows whose publisher cell is a string
containing an at-sign get the extracted organization in the organization
column; all other rows keep the prior organization cell, which - when the
column did not exist before the masked .loc assignment - is the missing
value.  The Python default arguments are publisher and organization. -/
def add_organization_column (df : DF)
    (publisher_column organization_column : String) : DF :=
  let pub := getCol df publisher_column
  let base :=
    if hasCol df organization_column then getCol df organization_column
    else pub.map fun _ => Val.na
  let org := (pub.zip base).map fun pb =>
    match pb.1 with
    | Val.str s =>
        if '@' ∈ s.toList then Val.str (extract_organization_from_email s)
        else pb.2
    | _ => pb.2
  setCol df organization_column org

/-- Embedding of pandas Series.value_counts followed by reset_index, as used
by publisher_analysis.get_organization_counts: missing values are dropped,
each remaining distinct value is paired with its multiplicity, and the pairs
are sorted by descending count. -/
def value_counts (vs : List Val) : List (Val × Nat) :=
  let present := vs.filter fun v => decide (v ≠ Val.na)
  sortStable (fun a b => decide (b.2 ≤ a.2))
    ((pyDedup present).map fun v => (v, present.count v))

/-- Embedding of publisher_analysis.get_organization_counts: when the
organization column is absent it is first computed by
add_organization_column with its default column names; the counts table
pairs each non-missing organization value with its number of rows. -/
def get_organization_counts (df : DF) (organization_column : String) :
    List (Val × Nat) :=
  let df1 :=
    if hasCol df organization_column then df
    else add_organization_column df "publisher" "organization"
  value_counts (getCol df1 organization_column)

/-! ### sentiment_analysis and text_processing: DataFrame transformations -/

/-- Embedding of sentiment_analysis.add_sentiment_analysis (value level,
after the initial df.copy()).  The VADER scorer is the parameter analyzer,
mapping a headline to its compound score; a non-string headline cell yields
a missing score (in Python the scorer would raise on it).  The category
column is pandas.cut as modelled by pdCutLabel; the group column applies
astype(str) and then the replace mapping. -/
def add_sentiment_analysis (analyzer : String → ℚ) (df : DF)
    (headline_column : String) : DF :=
  let sent := (getCol df headline_column).map fun v =>
    match v with
    | Val.str s => Val.num (analyzer s)
    | _ => Val.na
  let df1 := setCol df "headline_sentiment" sent
  let cat := sent.map fun v =>
    match v with
    | Val.num q =>
        match pdCutLabel q with
        | some lab => Val.str lab
        | none => Val.na
    | _ => Val.na
  let df2 := setCol df1 "sentiment_category" cat
  let grp := cat.map fun v => Val.str (sentiment_group (valAsPyStr v))
  setCol df2 "sentiment_group" grp

/-- Embedding of text_processing.add_headline_length (value level, after the
initial df.copy()): the headline column is coerced to strings by
astype(str), then the headline_length column holds each string's length. -/
def add_headline_length (df : DF) (headline_column : String) : DF :=
  let h := (getCol df headline_column).map fun v => Val.str (valAsPyStr v)
  let df1 := setCol df headline_column h
  setCol df1 "headline_length" (h.map fun v =>
    match v with
    | Val.str s => Val.num (s.length : ℚ)
    | _ => Val.na)

/-! ### Object store: modelling Python reference semantics

Each of the three column-adding Python functions begins with df = df.copy()
and then mutates only the copy.  To state that the caller's DataFrame is
not mutated, DataFrames live in a store addressed by handles; df.copy()
allocates a fresh handle and column assignment writes through the local
handle. -/

/-- Store of allocated DataFrames; a handle is an index into the list. -/
structure Store where
  dfs : List DF

/-- Dereference a handle (an invalid handle reads as an empty DataFrame). -/
def readDF (st : Store) (i : Nat) : DF :=
  (st.dfs[i]?).getD ⟨[]⟩

/-- Allocate a fresh DataFrame (df.copy()), returning the new handle. -/
def allocDF (st : Store) (d : DF) : Store × Nat :=
  (⟨st.dfs ++ [d]⟩, st.dfs.length)

/-- Overwrite the DataFrame at a handle (column assignment through a local
variable bound to that handle). -/
def writeDF (st : Store) (i : Nat) (d : DF) : Store :=
  ⟨st.dfs.set i d⟩

/-- Store-level add_organization_column: copy the argument, assign the new
column on the copy, return the copy's handle. -/
def add_organization_column_st (st : Store) (i : Nat)
    (publisher_column organization_column : String) : Store × Nat :=
  let copied := allocDF st (readDF st i)
  (writeDF copied.1 copied.2
    (add_organization_column (readDF copied.1 copied.2)
      publisher_column organization_column), copied.2)

/-- Store-level add_sentiment_analysis: copy the argument, assign the three
sentiment columns on the copy, return the copy's handle. -/
def add_sentiment_analysis_st (analyzer : String → ℚ) (st : Store) (i : Nat)
    (headline_column : String) : Store × Nat :=
  let copied := allocDF st (readDF st i)
  (writeDF copied.1 copied.2
    (add_sentiment_analysis analyzer (readDF copied.1 copied.2)
      headline_column), copied.2)

/-- Store-level add_headline_length: copy the argument, assign the length
column on the copy, return the copy's handle. -/
def add_headline_length_st (st : Store) (i : Nat)
    (headline_column : String) : Store × Nat :=
  let copied := allocDF st (readDF st i)
  (writeDF copied.1 copied.2
    (add_headline_length (readDF copied.1 copied.2) headline_column),
   copied.2)

/-! ### data_loader.load_stock_data -/

/-- Embedding of os.path.join for two components: the components are joined
with a single slash, which is omitted when the first component already ends
with one or is empty. -/
def ospathjoin (a b : String) : String :=
  if a = "" ∨ a.endsWith "/" then a ++ b else a ++ "/" ++ b

/-- Embedding of data_loader.load_stock_data.  The filesystem is the
parameter fs, mapping a path to the parsed CSV when the file exists and to
none otherwise; to_datetime is the pandas date parser applied to the Date
column when present.  The result is the ticker-to-DataFrame association
built by the loop together with the warning lines printed for missing
files; the function is total, so no input raises an error. -/
def load_stock_data (fs : String → Option DF) (to_datetime : List Val → List Val)
    (tickers : List String) (base_path : String) :
    List (String × DF) × List String :=
  match tickers with
  | [] => ([], [])
  | ticker :: rest =>
    let file_path := ospathjoin base_path (ticker ++ ".csv")
    let res := load_stock_data fs to_datetime rest base_path
    match fs file_path with
    | some df0 =>
        ((ticker,
          if (df0.cols.lookup "Date").isSome then
            setCol df0 "Date" (to_datetime (getCol df0 "Date"))
          else df0) :: res.1, res.2)
    | none =>
        (res.1,
         ("Warning: File not found for " ++ ticker ++ ": " ++ file_path)
           :: res.2)

/-! ### text_processing: word frequencies and trigrams -/

/-- Embedding of text_processing.get_word_frequencies.  Tokenization
(text_processing.get_tokens) delegates to NLTK's tokenizer and stopword
list, external resources; it is therefore the parameter get_tokens.  All
headlines are tokenized into one stream, Counter counts each distinct token
in first-occurrence order, and most_common sorts the pairs by descending
count (a stable sort, as in CPython).  Python treats both None and 0 as a
falsy top_n and then returns the full list. -/
def get_word_frequencies (get_tokens : String → List String)
    (headlines : List String) (top_n : Option Nat) : List (String × Nat) :=
  let all_tokens := headlines.flatMap get_tokens
  let word_counts :=
    (pyDedup all_tokens).map fun w => (w, all_tokens.count w)
  let most_common := sortStable (fun a b => decide (b.2 ≤ a.2)) word_counts
  match top_n with
  | some n => if n ≠ 0 then most_common.take n else most_common
  | none => most_common

/-- Contiguous three-word windows of a word stream, in order: the trigram
multiset counted by NLTK's TrigramCollocationFinder.from_words with its
default window size. -/
def trigramWindows : List String → List (String × String × String)
  | a :: b :: c :: rest => (a, b, c) :: trigramWindows (b :: c :: rest)
  | _ => []

/-- Numerator of the trigram PMI comparison: the window count of the
trigram times the squared length of the word stream. -/
def pmiNum (ws : List String) (t : String × String × String) : Nat :=
  (trigramWindows ws).count t * ws.length ^ 2

/-- Denominator of the trigram PMI comparison: the product of the three
unigram counts. -/
def pmiDen (ws : List String) (t : String × String × String) : Nat :=
  ws.count t.1 * (ws.count t.2.1 * ws.count t.2.2)

/-- Strict lexicographic order on character lists: Python string
comparison. -/
def charsLt : List Char → List Char → Bool
  | [], [] => false
  | [], _ :: _ => true
  | _ :: _, [] => false
  | a :: as, b :: bs => if a = b then charsLt as bs else decide (a < b)

/-- Python string less-than. -/
def strLt (a b : String) : Bool :=
  charsLt a.toList b.toList

/-- Python tuple less-or-equal on string triples, the tie-break order NLTK
uses when sorting scored ngrams. -/
def tripleLe (a b : String × String × String) : Bool :=
  if a.1 = b.1 then
    if a.2.1 = b.2.1 then !(strLt b.2.2 a.2.2)
    else strLt a.2.1 b.2.1
  else strLt a.1 b.1

/-- Ordering used by NLTK nbest with the PMI measure: by descending score,
ties by ascending ngram tuple.  The PMI score is the base-2 logarithm of
pmiNum over pmiDen; the logarithm is strictly monotone and the denominators
of candidate trigrams are positive, so comparing scores is comparing the
two fractions, done here by cross-multiplication in the naturals. -/
def pmiKeyLe (ws : List String) (a b : String × String × String) : Bool :=
  if pmiNum ws b * pmiDen ws a = pmiNum ws a * pmiDen ws b then tripleLe a b
  else decide (pmiNum ws b * pmiDen ws a < pmiNum ws a * pmiDen ws b)

/-- Embedding of text_processing.get_trigrams: the tokenized headlines are
flattened into one word stream, the distinct contiguous three-word windows
are the candidate trigrams, apply_freq_filter discards candidates occurring
fewer than freq_filter times, and nbest returns the first top_n of the
remainder sorted by descending PMI. -/
def get_trigrams (headlines : List (List String))
    (freq_filter top_n : Nat) : List (String × String × String) :=
  let all_words := headlines.flatten
  let windows := trigramWindows all_words
  let candidates := pyDedup windows
  let filtered :=
    candidates.filter fun t => decide (freq_filter ≤ windows.count t)
  (sortStable (pmiKeyLe all_words) filtered).take top_n

/-! ### Helper lemmas -/

theorem insertOrdered_perm (le : α → α → Bool) (a : α) (l : List α) :
    (insertOrdered le a l).Perm (a :: l) := by
  induction l with
  | nil => exact List.Perm.refl _
  | cons b bs ih =>
    unfold insertOrdered
    by_cases h : le a b = true
    · rw [if_pos h]
    · rw [if_neg h]
      exact (ih.cons b).trans (List.Perm.swap a b bs)

theorem sortStable_perm (le : α → α → Bool) (l : List α) :
    (sortStable le l).Perm l := by
  induction l with
  | nil => exact List.Perm.refl _
  | cons a l ih =>
    exact (insertOrdered_perm le a (sortStable le l)).trans (ih.cons a)

theorem mem_sortStable (le : α → α → Bool) (l : List α) (a : α) :
    a ∈ sortStable le l ↔ a ∈ l :=
  (sortStable_perm le l).mem_iff

theorem mem_dedupAcc [DecidableEq α] (seen l : List α) (a : α) :
    a ∈ dedupAcc seen l ↔ a ∈ l ∧ a ∉ seen := by
  induction l generalizing seen with
  | nil => simp [dedupAcc]
  | cons b bs ih =>
    unfold dedupAcc
    by_cases hb : b ∈ seen
    · rw [if_pos hb, ih]
      constructor
      · exact fun ⟨h1, h2⟩ => ⟨List.mem_cons_of_mem b h1, h2⟩
      · rintro ⟨h1, h2⟩
        rcases List.mem_cons.1 h1 with rfl | h1
        · exact absurd hb h2
        · exact ⟨h1, h2⟩
    · rw [if_neg hb]
      constructor
      · intro h
        rcases List.mem_cons.1 h with rfl | h
        · exact ⟨List.mem_cons_self a bs, hb⟩
        · rcases (ih (b :: seen)).1 h with ⟨h1, h2⟩
          refine ⟨List.mem_cons_of_mem b h1, fun hs => h2 (List.mem_cons_of_mem b hs)⟩
      · rintro ⟨h1, h2⟩
        rcases List.mem_cons.1 h1 with rfl | h1
        · exact List.mem_cons_self a _
        · by_cases hab : a = b
          · subst hab; exact List.mem_cons_self a _
          · exact List.mem_cons_of_mem b
              ((ih (b :: seen)).2 ⟨h1, by simp [hab, h2]⟩)

theorem mem_pyDedup [DecidableEq α] (l : List α) (a : α) :
    a ∈ pyDedup l ↔ a ∈ l := by
  rw [pyDedup, mem_dedupAcc]; simp

theorem nodup_dedupAcc [DecidableEq α] (seen l : List α) :
    (dedupAcc seen l).Nodup := by
  induction l generalizing seen with
  | nil => exact List.nodup_nil
  | cons b bs ih =>
    unfold dedupAcc
    by_cases hb : b ∈ seen
    · rw [if_pos hb]; exact ih seen
    · rw [if_neg hb]
      refine List.Nodup.cons ?_ (ih (b :: seen))
      intro hmem
      exact ((mem_dedupAcc (b :: seen) bs b).1 hmem).2 (List.mem_cons_self b seen)

theorem nodup_pyDedup [DecidableEq α] (l : List α) : (pyDedup l).Nodup :=
  nodup_dedupAcc [] l

/-! ### C1: classify_sentiment is a closed-at-the-lower-edge partition -/

/-- C1: for every rational compound score in the interval from -1 to 1,
classify_sentiment returns one of the five category strings, and the five
threshold regions - closed at the lower edge - each map to their category:
scores at or above 0.7 give very-positive (so exactly 0.7 is very-positive,
not positive), scores in [0.1, 0.7) give positive, scores in [-0.1, 0.1)
give neutral, scores in [-0.7, -0.1) give negative, and all remaining
scores give very-negative. -/
theorem classify_sentiment_partition (x : ℚ) (hlo : -1 ≤ x) (hhi : x ≤ 1) :
    (7/10 ≤ x → classify_sentiment x = "very-positive") ∧
    (1/10 ≤ x → x < 7/10 → classify_sentiment x = "positive") ∧
    (-(1/10) ≤ x → x < 1/10 → classify_sentiment x = "neutral") ∧
    (-(7/10) ≤ x → x < -(1/10) → classify_sentiment x = "negative") ∧
    (x < -(7/10) → classify_sentiment x = "very-negative") ∧
    classify_sentiment x ∈
      ["very-positive", "positive", "neutral", "negative", "very-negative"] := by
  refine ⟨?_, ?_, ?_, ?_, ?_, ?_⟩
  · intro h
    unfold classify_sentiment
    rw [if_pos h]
  · intro h1 h2
    unfold classify_sentiment
    rw [if_neg (not_le.2 h2), if_pos h1]
  · intro h1 h2
    unfold classify_sentiment
    rw [if_neg (not_le.2 (by linarith : x < 7/10)), if_neg (not_le.2 h2),
      if_pos h1]
  · intro h1 h2
    unfold classify_sentiment
    rw [if_neg (not_le.2 (by linarith : x < 7/10)),
      if_neg (not_le.2 (by linarith : x < 1/10)), if_neg (not_le.2 h2),
      if_pos h1]
  · intro h
    unfold classify_sentiment
    rw [if_neg (not_le.2 (by linarith : x < 7/10)),
      if_neg (not_le.2 (by linarith : x < 1/10)),
      if_neg (not_le.2 (by linarith : x < -(1/10))), if_neg (not_le.2 h)]
  · unfold classify_sentiment
    split_ifs <;> simp

/-- Witness for C1 at the boundary score 0.7: it classifies as
very-positive, not positive. -/
theorem classify_sentiment_partition_witness :
    classify_sentiment (7/10) = "very-positive" :=
  (classify_sentiment_partition (7/10) (by norm_num) (by norm_num)).1
    (by norm_num)

/-! ### C2: pandas.cut versus classify_sentiment -/

/-- C2 counterexample: at the boundary score 0.7 the pandas.cut
categorization of add_sentiment_analysis yields positive while
classify_sentiment yields very-positive, so the two classifications are not
equivalent at the boundary scores. -/
theorem pdCut_classify_disagree :
    pdCutLabel (7/10) = some "positive" ∧
    classify_sentiment (7/10) = "very-positive" ∧
    pdCutLabel (7/10) ≠ some (classify_sentiment (7/10)) := by
  have h1 : pdCutLabel (7/10) = some "positive" := by norm_num [pdCutLabel]
  have h2 : classify_sentiment (7/10) = "very-positive" := by
    norm_num [classify_sentiment]
  exact ⟨h1, h2, by rw [h1, h2]; decide⟩

/-- C2 amended: away from the bin edges -1, -0.7, -0.1, 0.1 and 0.7 the two
classifications agree; at each interior edge pandas.cut (right-closed bins)
assigns the lower category while classify_sentiment assigns the upper one,
and at -1 pandas.cut assigns no category at all. -/
theorem pdCut_classify_agree_off_boundaries (x : ℚ)
    (hlo : -1 ≤ x) (hhi : x ≤ 1) (b1 : x ≠ -1) (b2 : x ≠ -(7/10))
    (b3 : x ≠ -(1/10)) (b4 : x ≠ 1/10) (b5 : x ≠ 7/10) :
    pdCutLabel x = some (classify_sentiment x) := by
  have h1 : -1 < x := lt_of_le_of_ne hlo (Ne.symm b1)
  unfold pdCutLabel classify_sentiment
  rcases lt_or_le x (-(7/10)) with hA | hA
  · rw [if_neg (not_le.2 h1), if_pos hA.le,
      if_neg (not_le.2 (by linarith : x < 7/10)),
      if_neg (not_le.2 (by linarith : x < 1/10)),
      if_neg (not_le.2 (by linarith : x < -(1/10))), if_neg (not_le.2 hA)]
  · have hA' : -(7/10) < x := lt_of_le_of_ne hA (Ne.symm b2)
    rcases lt_or_le x (-(1/10)) with hB | hB
    · rw [if_neg (not_le.2 h1), if_neg (not_le.2 hA'), if_pos hB.le,
        if_neg (not_le.2 (by linarith : x < 7/10)),
        if_neg (not_le.2 (by linarith : x < 1/10)), if_neg (not_le.2 hB),
        if_pos hA]
    · have hB' : -(1/10) < x := lt_of_le_of_ne hB (Ne.symm b3)
      rcases lt_or_le x (1/10) with hC | hC
      · rw [if_neg (not_le.2 h1), if_neg (not_le.2 hA'),
          if_neg (not_le.2 hB'), if_pos hC.le,
          if_neg (not_le.2 (by linarith : x < 7/10)),
          if_neg (not_le.2 hC), if_pos hB]
      · have hC' : 1/10 < x := lt_of_le_of_ne hC (Ne.symm b4)
        rcases lt_or_le x (7/10) with hD | hD
        · rw [if_neg (not_le.2 h1), if_neg (not_le.2 hA'),
            if_neg (not_le.2 hB'), if_neg (not_le.2 hC'), if_pos hD.le,
            if_neg (not_le.2 hD), if_pos hC]
        · have hD' : 7/10 < x := lt_of_le_of_ne hD (Ne.symm b5)
          rw [if_neg (not_le.2 h1), if_neg (not_le.2 hA'),
            if_neg (not_le.2 hB'), if_neg (not_le.2 hC'),
            if_neg (not_le.2 hD'), if_pos hhi, if_pos hD]

/-- Witness for the amended C2 at the interior score one half. -/
theorem pdCut_classify_agree_witness :
    pdCutLabel (1/2) = some (classify_sentiment (1/2)) :=
  pdCut_classify_agree_off_boundaries (1/2) (by norm_num) (by norm_num)
    (by norm_num) (by norm_num) (by norm_num) (by norm_num) (by norm_num)

/-! ### C3: extraction on email-shaped strings -/

theorem pySplit_ne_nil (sep : Char) (l : List Char) : pySplit sep l ≠ [] := by
  cases l with
  | nil => simp [pySplit]
  | cons c cs =>
    unfold pySplit
    by_cases h : c = sep
    · simp [h]
    · rw [if_neg h]
      cases pySplit sep cs <;> simp

theorem takeWhile_append_of_all (p : Char → Bool) (a l : List Char)
    (h : ∀ x ∈ a, p x = true) :
    (a ++ l).takeWhile p = a ++ l.takeWhile p := by
  induction a with
  | nil => rfl
  | cons c cs ih =>
    rw [List.cons_append, List.takeWhile_cons, if_pos (h c (List.mem_cons_self c cs)),
      ih (fun x hx => h x (List.mem_cons_of_mem c hx)), List.cons_append]

theorem pySplit_headD (sep : Char) (l : List Char) :
    (pySplit sep l).headD [] = l.takeWhile (fun c => c != sep) := by
  induction l with
  | nil => rfl
  | cons c cs ih =>
    unfold pySplit
    by_cases h : c = sep
    · rw [if_pos h, List.takeWhile_cons]
      simp [h]
    · rw [if_neg h, List.takeWhile_cons]
      cases hps : pySplit sep cs with
      | nil => exact absurd hps (pySplit_ne_nil sep cs)
      | cons p ps =>
        rw [hps] at ih
        simp only [List.headD_cons] at ih
        simp [bne, h, ih]

theorem pySplit_append_sep (sep : Char) (a b : List Char) (ha : sep ∉ a) :
    pySplit sep (a ++ sep :: b) = a :: pySplit sep b := by
  induction a with
  | nil =>
    rw [List.nil_append]
    conv_lhs => rw [pySplit]
    rw [if_pos rfl]
  | cons c cs ih =>
    have hc : c ≠ sep := fun hcs => ha (hcs ▸ List.mem_cons_self c cs)
    rw [List.cons_append]
    conv_lhs => rw [pySplit]
    rw [if_neg hc, ih (fun hmem => ha (List.mem_cons_of_mem c hmem))]

/-- C3: on every email-shaped string built as user at domain dot tld - where
user and domain contain no at-sign and domain contains no dot, so that the
named parts are exactly the user, domain and suffix of the address -
extract_organization_from_email returns the domain part, the text strictly
before the first dot after the at-sign. -/
theorem extract_organization_email_shaped (u d t : List Char)
    (hu : '@' ∉ u) (hd : '@' ∉ d) (hdd : '.' ∉ d) :
    extract_organization_from_email ((u ++ '@' :: (d ++ '.' :: t)).asString)
      = d.asString := by
  have hmem : '@' ∈ u ++ '@' :: (d ++ '.' :: t) := by simp
  unfold extract_organization_from_email
  have hrw : (u ++ '@' :: (d ++ '.' :: t)).asString.toList
      = u ++ '@' :: (d ++ '.' :: t) := rfl
  rw [hrw, if_neg (not_not_intro hmem),
    pySplit_append_sep '@' u (d ++ '.' :: t) hu]
  cases hps : pySplit '@' (d ++ '.' :: t) with
  | nil => exact absurd hps (pySplit_ne_nil '@' _)
  | cons p ps =>
    have hp : p = (d ++ '.' :: t).takeWhile (fun c => c != '@') := by
      have := pySplit_headD '@' (d ++ '.' :: t)
      rw [hps] at this
      simpa using this
    have hp2 : p = d ++ '.' :: t.takeWhile (fun c => c != '@') := by
      rw [hp, takeWhile_append_of_all _ d _ (fun x hx => by
          simp only [bne_iff_ne, ne_eq]
          intro hcon
          exact hd (hcon ▸ hx)),
        List.takeWhile_cons]
      simp
    simp only [List.getD_cons_succ, List.getD_cons_zero]
    rw [pySplit_headD '.' p, hp2, takeWhile_append_of_all _ d _ (fun x hx => by
        simp only [bne_iff_ne, ne_eq]
        intro hcon
        exact hdd (hcon ▸ hx)),
      List.takeWhile_cons]
    simp

/-- Witness for C3 on the address user at domain dot tld. -/
theorem extract_organization_email_shaped_witness :
    extract_organization_from_email
      (("user".toList ++ '@' :: ("domain".toList ++ '.' :: "tld".toList)).asString)
      = "domain".toList.asString :=
  extract_organization_email_shaped "user".toList "domain".toList "tld".toList
    (by decide) (by decide) (by decide)

/-! ### C4: strings without an at-sign pass through unchanged -/

/-- C4: every input string containing no at-sign character is returned
unchanged by extract_organization_from_email, and no error is raised (the
embedded function is total). -/
theorem extract_organization_no_at (s : String) (h : '@' ∉ s.toList) :
    extract_organization_from_email s = s := by
  unfold extract_organization_from_email
  rw [if_pos h]

/-- Witness for C4 on a concrete publisher name without an at-sign. -/
theorem extract_organization_no_at_witness :
    extract_organization_from_email "Benzinga Newsdesk" = "Benzinga Newsdesk" :=
  extract_organization_no_at "Benzinga Newsdesk" (by decide)

/-! ### C8: the three-way sentiment grouping -/

/-- C8: the three-way grouping maps very-positive and positive to positive,
very-negative and negative to negative, leaves neutral unchanged, and
alters no other value. -/
theorem sentiment_group_merge :
    sentiment_group "very-positive" = "positive" ∧
    sentiment_group "positive" = "positive" ∧
    sentiment_group "very-negative" = "negative" ∧
    sentiment_group "negative" = "negative" ∧
    sentiment_group "neutral" = "neutral" ∧
    ∀ s : String, s ≠ "very-positive" → s ≠ "very-negative" →
      sentiment_group s = s := by
  refine ⟨by decide, by decide, by decide, by decide, by decide, ?_⟩
  intro s h1 h2
  unfold sentiment_group
  rw [if_neg h1, if_neg h2]

/-- Witness for C8 on a value outside the five categories (the string a
missing category prints as): it is left unchanged. -/
theorem sentiment_group_merge_witness : sentiment_group "nan" = "nan" :=
  sentiment_group_merge.2.2.2.2.2 "nan" (by decide) (by decide)

/-! ### C5: trigram frequency floor -/

/-- C5: every trigram returned by get_trigrams occurs at least freq_filter
times as a contiguous three-word window of the flattened source corpus the
trigrams were built from. -/
theorem get_trigrams_freq_floor (headlines : List (List String))
    (freq_filter top_n : Nat) (t : String × String × String)
    (ht : t ∈ get_trigrams headlines freq_filter top_n) :
    freq_filter ≤ (trigramWindows headlines.flatten).count t := by
  simp only [get_trigrams] at ht
  have h1 := List.mem_of_mem_take ht
  have h2 := (mem_sortStable _ _ t).1 h1
  have h3 := List.mem_filter.1 h2
  exact of_decide_eq_true h3.2

/-- Witness for C5 on a one-headline corpus with frequency floor one. -/
theorem get_trigrams_freq_floor_witness :
    1 ≤ (trigramWindows ([["a", "b", "c"]] : List (List String)).flatten).count
      ("a", "b", "c") :=
  get_trigrams_freq_floor [["a", "b", "c"]] 1 5 ("a", "b", "c") (by decide)

/-! ### C6: missing stock files are skipped with a warning -/

/-- C6: load_stock_data returns exactly the tickers whose files exist, in
order, and one warning line for each ticker whose file does not exist; the
embedded function is total, so no input raises an error. -/
theorem load_stock_data_missing_skipped (fs : String → Option DF)
    (to_datetime : List Val → List Val) (tickers : List String)
    (base_path : String) :
    (load_stock_data fs to_datetime tickers base_path).1.map Prod.fst
      = tickers.filter
          (fun tk => (fs (ospathjoin base_path (tk ++ ".csv"))).isSome)
    ∧ (load_stock_data fs to_datetime tickers base_path).2
      = (tickers.filter
          (fun tk => !(fs (ospathjoin base_path (tk ++ ".csv"))).isSome)).map
          (fun tk => "Warning: File not found for " ++ tk ++ ": "
            ++ ospathjoin base_path (tk ++ ".csv")) := by
  induction tickers with
  | nil => exact ⟨rfl, rfl⟩
  | cons tk rest ih =>
    cases hfs : fs (ospathjoin base_path (tk ++ ".csv")) with
    | some df0 =>
      refine ⟨?_, ?_⟩
      · simp [load_stock_data, hfs, List.filter_cons, ih.1]
      · simp [load_stock_data, hfs, List.filter_cons, ih.2]
    | none =>
      refine ⟨?_, ?_⟩
      · simp [load_stock_data, hfs, List.filter_cons, ih.1]
      · simp [load_stock_data, hfs, List.filter_cons, ih.2]

/-! ### C7: word frequency counts sum to the token count -/

theorem length_count_filter (a : String) (m : List String) :
    m.length = m.count a + (m.filter fun x => decide (x ≠ a)).length := by
  induction m with
  | nil => rfl
  | cons c m ih =>
    by_cases hca : c = a
    · subst hca
      rw [List.length_cons, List.count_cons, List.filter_cons,
        if_pos (show (c == c) = true by simp),
        if_neg (show ¬(decide (c ≠ c) = true) by simp)]
      omega
    · rw [List.length_cons, List.count_cons, List.filter_cons,
        if_neg (show ¬((c == a) = true) by simp [hca]),
        if_pos (show decide (c ≠ a) = true by simp [hca]), List.length_cons]
      omega

theorem count_filter_ne (a x : String) (hxa : x ≠ a) (m : List String) :
    m.count x = (m.filter fun y => decide (y ≠ a)).count x := by
  induction m with
  | nil => rfl
  | cons c m ih =>
    by_cases hca : c = a
    · subst hca
      rw [List.count_cons, List.filter_cons,
        if_neg (show ¬(decide (c ≠ c) = true) by simp),
        if_neg (show ¬((c == x) = true) by
          simp only [beq_iff_eq]
          exact fun h => hxa h.symm)]
      omega
    · rw [List.filter_cons, if_pos (show decide (c ≠ a) = true by simp [hca])]
      simp only [List.count_cons]
      rw [ih]

theorem sum_counts_of_nodup_cover (d l : List String) (hd : d.Nodup)
    (hmem : ∀ a ∈ l, a ∈ d) :
    (d.map fun a => l.count a).sum = l.length := by
  induction d generalizing l with
  | nil =>
    cases l with
    | nil => rfl
    | cons b l' => exact absurd (hmem b (List.mem_cons_self b l')) (by simp)
  | cons a d' ih =>
    have hnd : d'.Nodup := hd.of_cons
    have hna : a ∉ d' := (List.nodup_cons.1 hd).1
    have hcongr : d'.map (fun x => l.count x)
        = d'.map (fun x => (l.filter fun y => decide (y ≠ a)).count x) := by
      refine List.map_congr_left (fun x hx => ?_)
      exact count_filter_ne a x (fun hcon => hna (hcon ▸ hx)) l
    have hmem' : ∀ b ∈ l.filter fun y => decide (y ≠ a), b ∈ d' := by
      intro b hb
      rcases List.mem_filter.1 hb with ⟨hbl, hbp⟩
      rcases List.mem_cons.1 (hmem b hbl) with rfl | hbd
      · simp at hbp
      · exact hbd
    rw [List.map_cons, List.sum_cons, hcongr, ih _ hnd hmem',
      ← length_count_filter a l]

/-- C7: with top_n equal to None, the counts of the returned word-frequency
pairs sum to the total number of tokens produced by tokenizing all
headlines.  The NLTK-backed tokenizer is the parameter get_tokens, so the
identity holds for every tokenizer. -/
theorem word_frequencies_sum_eq_token_count (get_tokens : String → List String)
    (headlines : List String) :
    ((get_word_frequencies get_tokens headlines none).map Prod.snd).sum
      = (headlines.flatMap get_tokens).length := by
  simp only [get_word_frequencies]
  have hperm := ((sortStable_perm (fun a b => decide (b.2 ≤ a.2))
    ((pyDedup (headlines.flatMap get_tokens)).map
      fun w => (w, (headlines.flatMap get_tokens).count w))).map Prod.snd).sum_eq
  rw [hperm, List.map_map]
  exact sum_counts_of_nodup_cover _ _ (nodup_pyDedup _)
    (fun a ha => (mem_pyDedup _ a).2 ha)

/-! ### C9: the column-adding transformations do not mutate their input -/

theorem readDF_copy_write (st : Store) (d d' : DF) (i : Nat)
    (h : i < st.dfs.length) :
    readDF (writeDF ⟨st.dfs ++ [d]⟩ st.dfs.length d') i = readDF st i := by
  unfold readDF writeDF
  dsimp only
  rw [List.getElem?_set_ne (ne_of_gt h), List.getElem?_append_left h]

/-- C9: each of the three column-adding transformations, run on the object
store, returns a handle distinct from its argument and leaves the
DataFrame at the argument handle unchanged: the input table is not
mutated. -/
theorem add_columns_preserve_input (st : Store) (i : Nat)
    (analyzer : String → ℚ) (pc oc hc hc2 : String)
    (h : i < st.dfs.length) :
    (readDF (add_organization_column_st st i pc oc).1 i = readDF st i
      ∧ (add_organization_column_st st i pc oc).2 ≠ i)
    ∧ (readDF (add_sentiment_analysis_st analyzer st i hc).1 i = readDF st i
      ∧ (add_sentiment_analysis_st analyzer st i hc).2 ≠ i)
    ∧ (readDF (add_headline_length_st st i hc2).1 i = readDF st i
      ∧ (add_headline_length_st st i hc2).2 ≠ i) :=
  ⟨⟨readDF_copy_write st _ _ i h, ne_of_gt h⟩,
   ⟨readDF_copy_write st _ _ i h, ne_of_gt h⟩,
   ⟨readDF_copy_write st _ _ i h, ne_of_gt h⟩⟩

/-- Witness for C9 on a one-DataFrame store. -/
theorem add_columns_preserve_input_witness :
    (readDF (add_organization_column_st ⟨[⟨[]⟩]⟩ 0 "publisher" "organization").1 0
        = readDF ⟨[⟨[]⟩]⟩ 0
      ∧ (add_organization_column_st ⟨[⟨[]⟩]⟩ 0 "publisher" "organization").2 ≠ 0)
    ∧ (readDF (add_sentiment_analysis_st (fun _ => 0) ⟨[⟨[]⟩]⟩ 0 "headline").1 0
        = readDF ⟨[⟨[]⟩]⟩ 0
      ∧ (add_sentiment_analysis_st (fun _ => 0) ⟨[⟨[]⟩]⟩ 0 "headline").2 ≠ 0)
    ∧ (readDF (add_headline_length_st ⟨[⟨[]⟩]⟩ 0 "headline").1 0
        = readDF ⟨[⟨[]⟩]⟩ 0
      ∧ (add_headline_length_st ⟨[⟨[]⟩]⟩ 0 "headline").2 ≠ 0) :=
  add_columns_preserve_input ⟨[⟨[]⟩]⟩ 0 (fun _ => 0) "publisher" "organization"
    "headline" "headline" (by decide)

/-! ### C10: non-email publishers and the organization counts -/

theorem lookup_map_replace (l : List (String × List Val)) (n : String)
    (vs : List Val) (h : (l.lookup n).isSome) :
    ((l.map fun c => if c.1 = n then (n, vs) else c).lookup n) = some vs := by
  induction l with
  | nil => simp [List.lookup] at h
  | cons c cs ih =>
    obtain ⟨k, v⟩ := c
    by_cases hk : k = n
    · rw [List.map_cons, if_pos hk]
      simp [List.lookup]
    · rw [List.map_cons, if_neg hk]
      simp only [List.lookup, show (n == k) = false by simp [Ne.symm hk]] at h ⊢
      exact ih h

theorem lookup_append_absent (l : List (String × List Val)) (n : String)
    (vs : List Val) (h : l.lookup n = none) :
    (l ++ [(n, vs)]).lookup n = some vs := by
  induction l with
  | nil => simp [List.lookup]
  | cons c cs ih =>
    obtain ⟨k, v⟩ := c
    by_cases hk : k = n
    · simp [List.lookup, hk] at h
    · simp only [List.cons_append, List.lookup,
        show (n == k) = false by simp [Ne.symm hk]] at h ⊢
      exact ih h

theorem getCol_setCol (df : DF) (n : String) (vs : List Val) :
    getCol (setCol df n vs) n = vs := by
  unfold getCol setCol hasCol
  by_cases h : (df.cols.lookup n).isSome
  · rw [if_pos h]
    show ((df.cols.map fun c => if c.1 = n then (n, vs) else c).lookup n).getD []
      = vs
    rw [lookup_map_replace df.cols n vs h]
    rfl
  · rw [if_neg h]
    show ((df.cols ++ [(n, vs)]).lookup n).getD [] = vs
    rw [lookup_append_absent df.cols n vs (by
      rcases hl : df.cols.lookup n with _ | v
      · rfl
      · rw [hl] at h; simp at h)]
    rfl

theorem mem_value_counts (vs : List Val) (v : Val) (c : Nat)
    (h : (v, c) ∈ value_counts vs) : v ∈ vs ∧ v ≠ Val.na := by
  simp only [value_counts] at h
  have h1 := (mem_sortStable _ _ _).1 h
  rcases List.mem_map.1 h1 with ⟨w, hw, heq⟩
  obtain ⟨rfl, -⟩ := Prod.mk.injEq .. ▸ And.intro (congrArg Prod.fst heq)
    (congrArg Prod.snd heq)
  have h2 := (mem_pyDedup _ _).1 hw
  rcases List.mem_filter.1 h2 with ⟨h3, h4⟩
  exact ⟨h3, of_decide_eq_true h4⟩

theorem org_column_no_prior (df : DF) (pc oc : String)
    (h : hasCol df oc = false) :
    getCol (add_organization_column df pc oc) oc
      = ((getCol df pc).zip ((getCol df pc).map fun _ => Val.na)).map
        (fun pb => match pb.1 with
          | Val.str s =>
              if '@' ∈ s.toList
              then Val.str (extract_organization_from_email s) else pb.2
          | _ => pb.2) := by
  have hbase : (if hasCol df oc then getCol df oc
      else (getCol df pc).map fun _ => Val.na)
      = (getCol df pc).map fun _ => Val.na := by
    rw [if_neg (show ¬(hasCol df oc = true) by simp [h])]
  unfold add_organization_column
  simp only [hbase]
  exact getCol_setCol df oc _

/-- C10 counterexample: in a table whose publishers are the non-email
string p and the email u at p dot com, the organization counts computed on
demand do contain a row named p - the email's extracted organization
collides with the non-email publisher's name - so a row for a non-email
publisher's name can appear in the result. -/
theorem org_counts_collision :
    hasCol ⟨[("publisher", [Val.str "p", Val.str "u@p.com"])]⟩ "organization"
        = false
    ∧ Val.str "p"
        ∈ getCol ⟨[("publisher", [Val.str "p", Val.str "u@p.com"])]⟩ "publisher"
    ∧ '@' ∉ "p".toList
    ∧ (Val.str "p", 1) ∈ get_organization_counts
        ⟨[("publisher", [Val.str "p", Val.str "u@p.com"])]⟩ "organization" :=
  ⟨by decide, by decide, by decide, by decide⟩

/-- C10 amended: in a table without an organization column, a publisher
entry that is a string without an at-sign contributes nothing to the
organization counts: provided no email-shaped publisher entry's extracted
organization equals that string, the counts returned by
get_organization_counts contain no row for it.  (The proviso is necessary:
an email publisher whose domain equals the non-email publisher's name
produces a row of that name, as the counterexample shows.) -/
theorem org_counts_no_row_for_non_email (df : DF) (p : String)
    (hnocol : hasCol df "organization" = false)
    (hmem : Val.str p ∈ getCol df "publisher")
    (hno : '@' ∉ p.toList)
    (hnocoll : ∀ s : String, Val.str s ∈ getCol df "publisher" →
      '@' ∈ s.toList → extract_organization_from_email s ≠ p) :
    ∀ c : Nat,
      (Val.str p, c) ∉ get_organization_counts df "organization" := by
  intro c hc
  simp only [get_organization_counts] at hc
  rw [if_neg (show ¬(hasCol df "organization" = true) by simp [hnocol])] at hc
  obtain ⟨hvin, -⟩ := mem_value_counts _ _ _ hc
  rw [org_column_no_prior df "publisher" "organization" hnocol] at hvin
  rcases List.mem_map.1 hvin with ⟨pb, hpb, hfeq⟩
  obtain ⟨pv, bv⟩ := pb
  have hbv : bv = Val.na := by
    rcases List.mem_map.1 (List.of_mem_zip hpb).2 with ⟨-, -, hbv⟩
    exact hbv.symm
  cases pv with
  | str s =>
    dsimp only at hfeq
    by_cases hat : '@' ∈ s.toList
    · rw [if_pos hat] at hfeq
      exact hnocoll s (List.of_mem_zip hpb).1 hat (by
        have := hfeq
        simpa [Val.str.injEq] using this)
    · rw [if_neg hat, hbv] at hfeq
      exact Val.noConfusion hfeq
  | num q =>
    dsimp only at hfeq
    rw [hbv] at hfeq
    exact Val.noConfusion hfeq
  | na =>
    dsimp only at hfeq
    rw [hbv] at hfeq
    exact Val.noConfusion hfeq

/-- Witness for the amended C10: with publishers p and u at q dot com, no
organization row is named p. -/
theorem org_counts_no_row_for_non_email_witness :
    (Val.str "p", 1) ∉ get_organization_counts
      ⟨[("publisher", [Val.str "p", Val.str "u@q.com"])]⟩ "organization" :=
  org_counts_no_row_for_non_email
    ⟨[("publisher", [Val.str "p", Val.str "u@q.com"])]⟩ "p"
    (by decide) (by decide) (by decide)
    (by
      intro s hs hat
      have hs' : Val.str s ∈ [Val.str "p", Val.str "u@q.com"] := hs
      rcases List.mem_cons.1 hs' with h1 | h1
      · obtain rfl : s = "p" := by simpa [Val.str.injEq] using h1
        exact absurd hat (by decide)
      · rcases List.mem_cons.1 h1 with h2 | h2
        · obtain rfl : s = "u@q.com" := by simpa [Val.str.injEq] using h2
          decide
        · simp at h2)
    1

end Nova
